import Mathlib

/-!
Shallow embedding of the `kennitolur` Rust crate (Icelandic national
identification numbers).  Machine integers (`u8`, `u32`) are modelled as `Nat`;
all arithmetic in the source stays far below every overflow boundary on the
inputs the callers supply, which the development makes explicit through the
`Digits.valid` hypothesis mirroring the `debug_assert!` in `from_slice`.
Operations that can panic in Rust (slice indexing, `unwrap`, `usize`
subtraction underflow) are modelled with `Option`: `none` is a panic.
-/

namespace Kennitolur

/-- Error type from src/error.rs (`KennitalaError`). -/
inductive KennitalaError where
  | InvalidLength : Nat → KennitalaError
  | InvalidNumber : KennitalaError
  | InvalidDay : KennitalaError
  | InvalidMonth : KennitalaError
  | InvalidRandomDigits : KennitalaError
  | InvalidChecksum : KennitalaError
  | InvalidCentury : KennitalaError
  deriving DecidableEq, Repr

/-- The `[u8; 10]` digit array of src/lib.rs, with the ten cells as named
fields (`kennitala[i]` becomes `k.di`). -/
structure Digits where
  d0 : Nat
  d1 : Nat
  d2 : Nat
  d3 : Nat
  d4 : Nat
  d5 : Nat
  d6 : Nat
  d7 : Nat
  d8 : Nat
  d9 : Nat
  deriving DecidableEq, Repr

/-- The `debug_assert!(kennitala.iter().all(|d| *d <= 9))` precondition of
`Kennitala::from_slice`: every cell is a decimal digit. -/
def Digits.valid (k : Digits) : Prop :=
  k.d0 ≤ 9 ∧ k.d1 ≤ 9 ∧ k.d2 ≤ 9 ∧ k.d3 ≤ 9 ∧ k.d4 ≤ 9 ∧
  k.d5 ≤ 9 ∧ k.d6 ≤ 9 ∧ k.d7 ≤ 9 ∧ k.d8 ≤ 9 ∧ k.d9 ≤ 9

instance (k : Digits) : Decidable k.valid := by
  unfold Digits.valid; infer_instance

/-- The bit-packed `Kennitala` struct of src/lib.rs (`internal: u32`). -/
structure Kennitala where
  internal : Nat
  deriving DecidableEq, Repr

def DAY_MASK : Nat := 0b00000000000000000000000000011111
def DAY_OFFSET : Nat := 0
def MONTH_MASK : Nat := 0b00000000000000000000000111100000
def MONTH_OFFSET : Nat := DAY_OFFSET + 5
def YEAR_MASK : Nat := 0b00000000000000001111111000000000
def YEAR_OFFSET : Nat := MONTH_OFFSET + 4
def REST_MASK : Nat := 0b00000011111111110000000000000000
def REST_OFFSET : Nat := YEAR_OFFSET + 7
def CENTURY_MASK : Nat := 0b00000100000000000000000000000000
def CENTURY_OFFSET : Nat := REST_OFFSET + 10

/-- `is_leap_year` from src/dates.rs. -/
def is_leap_year (year : Nat) : Bool :=
  year % 4 == 0 && (year % 100 != 0 || year % 400 == 0)

/-- `DAYS_IN_MONTH` table from src/dates.rs. -/
def DAYS_IN_MONTH : List Nat := [31, 28, 31, 30, 31, 30, 31, 31, 30, 31, 30, 31]

/-- `days_in_month` from src/dates.rs.  `none` models the panic of
`DAYS_IN_MONTH[(month - 1) as usize]`: for `month = 0` the `u8` subtraction
underflows, and for `month > 12` the index is out of bounds. -/
def days_in_month (month year : Nat) : Option Nat :=
  if month == 2 && is_leap_year year then
    some 29
  else if month = 0 then
    none
  else
    DAYS_IN_MONTH[month - 1]?

/-- `calculate_checksum_digit` from src/lib.rs, the loop over
`VALIDATION_DIGITS = [3, 2, 7, 6, 5, 4, 3, 2]` unrolled
(`sum += kennitala[i] * VALIDATION_DIGITS[i]`). -/
def calculate_checksum_digit (k : Digits) : Nat :=
  let sum := k.d0 * 3 + k.d1 * 2 + k.d2 * 7 + k.d3 * 6 +
    k.d4 * 5 + k.d5 * 4 + k.d6 * 3 + k.d7 * 2
  let sum_mod_11 := sum % 11
  if sum_mod_11 = 0 then 0 else 11 - sum_mod_11

/-- `Kennitala::from_slice` from src/lib.rs.  `none` models a panic inside
`days_in_month` (unreachable: the month is checked first). -/
def from_slice (k : Digits) : Option (Except KennitalaError Kennitala) :=
  let checksum_digit := k.d8
  let calculated_checksum_digit := calculate_checksum_digit k
  if checksum_digit ≠ calculated_checksum_digit then
    some (.error .InvalidChecksum)
  else if k.d6 * 10 + k.d7 < 20 then
    some (.error .InvalidRandomDigits)
  else
    let century_digit := k.d9
    if ¬(century_digit = 0 ∨ century_digit = 9) then
      some (.error .InvalidCentury)
    else
      let year_offset : Nat := if century_digit = 0 then 2000 else 1900
      let dob_month := k.d2 * 10 + k.d3
      if dob_month > 12 ∨ dob_month = 0 then
        some (.error .InvalidMonth)
      else
        let dob_year := k.d4 * 10 + k.d5
        let dob_day := k.d0 * 10 + k.d1
        match days_in_month dob_month (dob_year + year_offset) with
        | none => none
        | some dim =>
          if dob_day > dim ∨ dob_day = 0 then
            some (.error .InvalidDay)
          else
            let rest := k.d6 * 100 + k.d7 * 10 + k.d8
            let value := (dob_day <<< DAY_OFFSET) + (dob_month <<< MONTH_OFFSET) +
              (dob_year <<< YEAR_OFFSET) + (rest <<< REST_OFFSET) +
              ((if century_digit = 0 then 1 else 0) <<< CENTURY_OFFSET)
            some (.ok ⟨value⟩)

/-- The character test of `Kennitala::new`:
`((c as u32) >= 48) && ((c as u32) <= 57)`. -/
def charIsDigit (c : Char) : Bool :=
  48 ≤ c.toNat && c.toNat ≤ 57

/-- `Kennitala::new` from src/lib.rs on the string's characters (all-digit
strings are ASCII, so the char count equals the Rust byte length).  The `none`
arm models the `<[u8; 10]>::try_from(...).unwrap()` panic, reachable only if a
10-character string failed to produce 10 bytes. -/
def new (s : List Char) : Option (Except KennitalaError Kennitala) :=
  if ¬(s.all charIsDigit) then
    some (.error .InvalidNumber)
  else if s.length ≠ 10 then
    some (.error (.InvalidLength s.length))
  else
    match s with
    | [c0, c1, c2, c3, c4, c5, c6, c7, c8, c9] =>
      from_slice ⟨c0.toNat - 48, c1.toNat - 48, c2.toNat - 48, c3.toNat - 48,
        c4.toNat - 48, c5.toNat - 48, c6.toNat - 48, c7.toNat - 48,
        c8.toNat - 48, c9.toNat - 48⟩
    | _ => none

/-- One structural presentation of `kt_to_array`'s `while n > 0` loop from
src/lib.rs, writing the decimal digits of `n` into `array[9 - i]` downwards.
The extra first argument is iteration fuel; `n` iterations always suffice
because `n` shrinks by `/ 10` each round, and when the fuel runs out `n` is
already `0`, matching the loop exit.  `none` models the panic of the `usize`
subtraction `9 - i` underflowing (i ≥ 10). -/
def kt_to_array_loopFuel : Nat → Nat → Nat → List Nat → Option (Nat × List Nat)
  | 0, _, i, a => some (i, a)
  | fuel + 1, n, i, a =>
    if n = 0 then
      some (i, a)
    else if 9 < i then
      none
    else
      kt_to_array_loopFuel fuel (n / 10) (i + 1) (a.set (9 - i) (n % 10))

/-- The loop of `kt_to_array`, with adequate fuel. -/
def kt_to_array_loop (n i : Nat) (a : List Nat) : Option (Nat × List Nat) :=
  kt_to_array_loopFuel n n i a

/-- `kt_to_array` from src/lib.rs: run the loop, then reject when fewer than 9
digits were written. -/
def kt_to_array (n : Nat) (a : List Nat) : Option (Except KennitalaError (List Nat)) :=
  match kt_to_array_loop n 0 a with
  | none => none
  | some (i, a2) => if i < 9 then some (.error (.InvalidLength i)) else some (.ok a2)

/-- View a (length-10) list as the ten-cell digit array. -/
def listToDigits (l : List Nat) : Digits :=
  ⟨l.getD 0 0, l.getD 1 0, l.getD 2 0, l.getD 3 0, l.getD 4 0,
   l.getD 5 0, l.getD 6 0, l.getD 7 0, l.getD 8 0, l.getD 9 0⟩

/-- `Kennitala::from_u32` from src/lib.rs: `let mut kennitala = [0; 10];
kt_to_array(kennitala_u32, &mut kennitala)?; Kennitala::from_slice(&kennitala)`. -/
def from_u32 (n : Nat) : Option (Except KennitalaError Kennitala) :=
  match kt_to_array n (List.replicate 10 0) with
  | none => none
  | some (.error e) => some (.error e)
  | some (.ok a) => from_slice (listToDigits a)

def get_day (kt : Kennitala) : Nat :=
  (kt.internal &&& DAY_MASK) >>> DAY_OFFSET

def get_month (kt : Kennitala) : Nat :=
  (kt.internal &&& MONTH_MASK) >>> MONTH_OFFSET

def get_short_year (kt : Kennitala) : Nat :=
  (kt.internal &&& YEAR_MASK) >>> YEAR_OFFSET

def get_century_bit (kt : Kennitala) : Nat :=
  (kt.internal &&& CENTURY_MASK) >>> CENTURY_OFFSET

def get_year (kt : Kennitala) : Nat :=
  get_short_year kt + (if get_century_bit kt = 0 then 1900 else 2000)

def get_short_century (kt : Kennitala) : Nat :=
  if get_century_bit kt = 0 then 9 else 0

def get_randoms (kt : Kennitala) : Nat :=
  (kt.internal &&& REST_MASK) >>> REST_OFFSET

/-- The ASCII character of a decimal digit value. -/
def digitChar (n : Nat) : Char := Char.ofNat (48 + n)

/-- Decimal digits of `n`, most significant first, as the Rust formatter
`{}` prints them (at least one character); structural recursion on fuel,
with `n` itself always adequate fuel (the argument shrinks by `/ 10`). -/
def decimalDigitsFuel : Nat → Nat → List Char
  | 0, n => [digitChar n]
  | fuel + 1, n =>
    if n < 10 then [digitChar n]
    else decimalDigitsFuel fuel (n / 10) ++ [digitChar (n % 10)]

/-- Decimal digits of `n`, most significant first. -/
def decimalDigits (n : Nat) : List Char := decimalDigitsFuel n n

/-- Zero padding to width `w`, as the Rust format specifier `{:0w}`. -/
def padZero (w : Nat) (s : List Char) : List Char :=
  List.replicate (w - s.length) '0' ++ s

/-- The `fmt::Display` implementation from src/lib.rs:
`"{:02}{:02}{:02}{:03}{}"` over day, month, short year, randoms, century. -/
def display (kt : Kennitala) : List Char :=
  padZero 2 (decimalDigits (get_day kt)) ++
  padZero 2 (decimalDigits (get_month kt)) ++
  padZero 2 (decimalDigits (get_short_year kt)) ++
  padZero 3 (decimalDigits (get_randoms kt)) ++
  decimalDigits (get_short_century kt)

instance {e a : Type} [DecidableEq e] [DecidableEq a] : DecidableEq (Except e a)
  | .error x, .error y => decidable_of_iff (x = y) (by simp)
  | .error _, .ok _ => isFalse (by simp)
  | .ok _, .error _ => isFalse (by simp)
  | .ok x, .ok y => decidable_of_iff (x = y) (by simp)

/-- The number of decimal digits of `n` (0 for `n = 0`), counting the
iterations of the `while n > 0` loop; structural recursion on fuel, with `n`
itself always adequate fuel. -/
def numDigitsFuel : Nat → Nat → Nat
  | 0, _ => 0
  | fuel + 1, n => if n = 0 then 0 else numDigitsFuel fuel (n / 10) + 1

/-- The number of decimal digits of `n` (0 for `n = 0`). -/
def numDigits (n : Nat) : Nat := numDigitsFuel n n

/-- The low `w` decimal digits of `n`, most significant first, zero padded. -/
def digitsOfLen : Nat → Nat → List Nat
  | 0, _ => []
  | w + 1, n => digitsOfLen w (n / 10) ++ [n % 10]

/-- `days_in_month` written out as the spec states it: the canonical per-month
day counts, with February at 29 exactly when the Gregorian leap rule holds
(year divisible by 4 and either not divisible by 100 or divisible by 400). -/
def daysInMonthSpec (m y : Nat) : Nat :=
  if m = 2 then
    if y % 4 = 0 ∧ (y % 100 ≠ 0 ∨ y % 400 = 0) then 29 else 28
  else if m = 4 ∨ m = 6 ∨ m = 9 ∨ m = 11 then 30
  else 31

/-- The packed `u32` value built at the end of `from_slice`. -/
def packValue (day month year rest bit : Nat) : Nat :=
  (day <<< DAY_OFFSET) + (month <<< MONTH_OFFSET) + (year <<< YEAR_OFFSET) +
    (rest <<< REST_OFFSET) + (bit <<< CENTURY_OFFSET)

lemma packValue_eq (day month year rest bit : Nat) :
    packValue day month year rest bit =
      day + month * 32 + year * 512 + rest * 65536 + bit * 67108864 := by
  simp [packValue, Nat.shiftLeft_eq, DAY_OFFSET, MONTH_OFFSET, YEAR_OFFSET,
    REST_OFFSET, CENTURY_OFFSET]

lemma and_mask_shiftRight (x k w : Nat) :
    (x &&& ((2 ^ w - 1) <<< k)) >>> k = x / 2 ^ k % 2 ^ w := by
  rw [← Nat.shiftRight_eq_div_pow, ← Nat.and_pow_two_sub_one_eq_mod]
  apply Nat.eq_of_testBit_eq
  intro j
  simp only [Nat.testBit_shiftRight, Nat.testBit_and, Nat.testBit_shiftLeft,
    Nat.add_sub_cancel_left]
  have hk : k ≤ k + j := Nat.le_add_right k j
  simp [hk]

lemma get_day_packValue (day month year rest bit : Nat)
    (hd : day < 32) (hm : month < 16) (hy : year < 128) (hr : rest < 1024)
    (hb : bit < 2) : get_day ⟨packValue day month year rest bit⟩ = day := by
  have h : DAY_MASK = (2 ^ 5 - 1) <<< 0 := by decide
  have h0 : DAY_OFFSET = 0 := by decide
  show (packValue day month year rest bit &&& DAY_MASK) >>> DAY_OFFSET = day
  rw [h, h0, and_mask_shiftRight, packValue_eq]
  norm_num
  omega

lemma get_month_packValue (day month year rest bit : Nat)
    (hd : day < 32) (hm : month < 16) (hy : year < 128) (hr : rest < 1024)
    (hb : bit < 2) : get_month ⟨packValue day month year rest bit⟩ = month := by
  have h : MONTH_MASK = (2 ^ 4 - 1) <<< 5 := by decide
  have h5 : MONTH_OFFSET = 5 := by decide
  show (packValue day month year rest bit &&& MONTH_MASK) >>> MONTH_OFFSET = month
  rw [h, h5, and_mask_shiftRight, packValue_eq]
  norm_num
  omega

lemma get_short_year_packValue (day month year rest bit : Nat)
    (hd : day < 32) (hm : month < 16) (hy : year < 128) (hr : rest < 1024)
    (hb : bit < 2) : get_short_year ⟨packValue day month year rest bit⟩ = year := by
  have h : YEAR_MASK = (2 ^ 7 - 1) <<< 9 := by decide
  have h9 : YEAR_OFFSET = 9 := by decide
  show (packValue day month year rest bit &&& YEAR_MASK) >>> YEAR_OFFSET = year
  rw [h, h9, and_mask_shiftRight, packValue_eq]
  norm_num
  omega

lemma get_randoms_packValue (day month year rest bit : Nat)
    (hd : day < 32) (hm : month < 16) (hy : year < 128) (hr : rest < 1024)
    (hb : bit < 2) : get_randoms ⟨packValue day month year rest bit⟩ = rest := by
  have h : REST_MASK = (2 ^ 10 - 1) <<< 16 := by decide
  have h16 : REST_OFFSET = 16 := by decide
  show (packValue day month year rest bit &&& REST_MASK) >>> REST_OFFSET = rest
  rw [h, h16, and_mask_shiftRight, packValue_eq]
  norm_num
  omega

lemma get_century_bit_packValue (day month year rest bit : Nat)
    (hd : day < 32) (hm : month < 16) (hy : year < 128) (hr : rest < 1024)
    (hb : bit < 2) : get_century_bit ⟨packValue day month year rest bit⟩ = bit := by
  have h : CENTURY_MASK = (2 ^ 1 - 1) <<< 26 := by decide
  have h26 : CENTURY_OFFSET = 26 := by decide
  show (packValue day month year rest bit &&& CENTURY_MASK) >>> CENTURY_OFFSET = bit
  rw [h, h26, and_mask_shiftRight, packValue_eq]
  norm_num
  omega

lemma is_leap_year_iff (y : Nat) :
    is_leap_year y = true ↔ y % 4 = 0 ∧ (y % 100 ≠ 0 ∨ y % 400 = 0) := by
  simp [is_leap_year]

lemma days_in_month_eq_spec (m y : Nat) (h1 : 1 ≤ m) (h2 : m ≤ 12) :
    days_in_month m y = some (daysInMonthSpec m y) := by
  by_cases hm2 : m = 2
  · subst hm2
    by_cases hl : y % 4 = 0 ∧ (y % 100 ≠ 0 ∨ y % 400 = 0)
    · have hb : is_leap_year y = true := (is_leap_year_iff y).mpr hl
      simp [days_in_month, daysInMonthSpec, hb, hl]
    · have hb : is_leap_year y = false := by
        cases hE : is_leap_year y
        · rfl
        · exact absurd ((is_leap_year_iff y).mp hE) hl
      simp [days_in_month, daysInMonthSpec, hb, hl, DAYS_IN_MONTH]
  · interval_cases m <;> simp_all [days_in_month, daysInMonthSpec, DAYS_IN_MONTH]

lemma daysInMonthSpec_le (m y : Nat) : daysInMonthSpec m y ≤ 31 := by
  unfold daysInMonthSpec
  split_ifs <;> omega

lemma daysInMonthSpec_pos (m y : Nat) : 1 ≤ daysInMonthSpec m y := by
  unfold daysInMonthSpec
  split_ifs <;> omega

/-- Everything the success of `from_slice` guarantees: every validation rule
passed and the packed value records the decoded fields. -/
lemma from_slice_ok_elim {k : Digits} {kt : Kennitala}
    (h : from_slice k = some (.ok kt)) :
    k.d8 = calculate_checksum_digit k ∧
    20 ≤ k.d6 * 10 + k.d7 ∧
    (k.d9 = 0 ∨ k.d9 = 9) ∧
    1 ≤ k.d2 * 10 + k.d3 ∧ k.d2 * 10 + k.d3 ≤ 12 ∧
    1 ≤ k.d0 * 10 + k.d1 ∧
    k.d0 * 10 + k.d1 ≤
      daysInMonthSpec (k.d2 * 10 + k.d3)
        (k.d4 * 10 + k.d5 + (if k.d9 = 0 then 2000 else 1900)) ∧
    kt.internal = packValue (k.d0 * 10 + k.d1) (k.d2 * 10 + k.d3)
      (k.d4 * 10 + k.d5) (k.d6 * 100 + k.d7 * 10 + k.d8)
      (if k.d9 = 0 then 1 else 0) := by
  simp only [from_slice] at h
  split at h
  · exact absurd h (by simp)
  split at h
  · exact absurd h (by simp)
  split at h
  · exact absurd h (by simp)
  split at h
  · exact absurd h (by simp)
  next hcs hrnd hcent hmonth =>
  push_neg at hcent hmonth
  by_cases h9 : k.d9 = 0
  · rw [if_pos h9, if_pos h9] at h
    rw [days_in_month_eq_spec (k.d2 * 10 + k.d3) (k.d4 * 10 + k.d5 + 2000)
        (by omega) (by omega)] at h
    split at h
    · exact absurd h (by simp)
    next x dim hdim =>
    obtain rfl : daysInMonthSpec (k.d2 * 10 + k.d3) (k.d4 * 10 + k.d5 + 2000) = dim := by
      simpa using hdim
    split at h
    · exact absurd h (by simp)
    next hday =>
    simp only [Option.some.injEq, Except.ok.injEq] at h
    push_neg at hday
    refine ⟨by omega, by omega, by tauto, by omega, by omega, by omega, ?_, ?_⟩
    · rw [if_pos h9]; omega
    · rw [if_pos h9, ← h]
      rfl
  · rw [if_neg h9, if_neg h9] at h
    rw [days_in_month_eq_spec (k.d2 * 10 + k.d3) (k.d4 * 10 + k.d5 + 1900)
        (by omega) (by omega)] at h
    split at h
    · exact absurd h (by simp)
    next x dim hdim =>
    obtain rfl : daysInMonthSpec (k.d2 * 10 + k.d3) (k.d4 * 10 + k.d5 + 1900) = dim := by
      simpa using hdim
    split at h
    · exact absurd h (by simp)
    next hday =>
    simp only [Option.some.injEq, Except.ok.injEq] at h
    push_neg at hday
    refine ⟨by omega, by omega, by tauto, by omega, by omega, by omega, ?_, ?_⟩
    · rw [if_neg h9]; omega
    · rw [if_neg h9, ← h]
      rfl

/-- Successful `Kennitala::new` means: the string is exactly ten digit
characters, and `from_slice` succeeded on their values. -/
lemma new_ok_elim {s : List Char} {kt : Kennitala}
    (h : new s = some (.ok kt)) :
    ∃ c0 c1 c2 c3 c4 c5 c6 c7 c8 c9,
      s = [c0, c1, c2, c3, c4, c5, c6, c7, c8, c9] ∧
      (∀ c ∈ s, charIsDigit c = true) ∧
      from_slice ⟨c0.toNat - 48, c1.toNat - 48, c2.toNat - 48, c3.toNat - 48,
        c4.toNat - 48, c5.toNat - 48, c6.toNat - 48, c7.toNat - 48,
        c8.toNat - 48, c9.toNat - 48⟩ = some (.ok kt) := by
  unfold new at h
  split at h
  · exact absurd h (by simp)
  next hdig =>
  split at h
  · exact absurd h (by simp)
  split at h
  next c0 c1 c2 c3 c4 c5 c6 c7 c8 c9 hlen =>
    refine ⟨c0, c1, c2, c3, c4, c5, c6, c7, c8, c9, rfl, ?_, h⟩
    rw [not_not] at hdig
    exact fun c hc => List.all_eq_true.mp hdig c hc
  · exact absurd h (by simp)

lemma decimalDigitsFuel_congr : ∀ f g n, n ≤ f → n ≤ g →
    decimalDigitsFuel f n = decimalDigitsFuel g n := by
  intro f
  induction f with
  | zero =>
    intro g n hf hg
    interval_cases n
    cases g <;> simp [decimalDigitsFuel]
  | succ f ih =>
    intro g n hf hg
    cases g with
    | zero =>
      interval_cases n
      simp [decimalDigitsFuel]
    | succ g =>
      by_cases h10 : n < 10
      · simp [decimalDigitsFuel, h10]
      · have h1 : n / 10 < n := Nat.div_lt_self (by omega) (by omega)
        simp only [decimalDigitsFuel, if_neg h10]
        rw [ih g (n / 10) (by omega) (by omega)]

lemma decimalDigits_lt10 {n : Nat} (h : n < 10) : decimalDigits n = [digitChar n] := by
  cases n with
  | zero => rfl
  | succ m => simp [decimalDigits, decimalDigitsFuel, h]

lemma decimalDigits_ge10 {n : Nat} (h : 10 ≤ n) :
    decimalDigits n = decimalDigits (n / 10) ++ [digitChar (n % 10)] := by
  obtain ⟨m, rfl⟩ : ∃ m, n = m + 1 := ⟨n - 1, by omega⟩
  show decimalDigitsFuel (m + 1) (m + 1) = _
  simp only [decimalDigitsFuel, if_neg (by omega : ¬m + 1 < 10)]
  congr 1
  exact decimalDigitsFuel_congr m ((m + 1) / 10) ((m + 1) / 10) (by omega) le_rfl

lemma digitChar_zero : digitChar 0 = '0' := by decide

lemma padZero_two {n : Nat} (h : n ≤ 99) :
    padZero 2 (decimalDigits n) = [digitChar (n / 10), digitChar (n % 10)] := by
  by_cases h10 : n < 10
  · rw [decimalDigits_lt10 h10, padZero]
    have e1 : n / 10 = 0 := by omega
    have e2 : n % 10 = n := by omega
    rw [e1, e2, digitChar_zero]
    rfl
  · rw [decimalDigits_ge10 (by omega), decimalDigits_lt10 (by omega : n / 10 < 10), padZero]
    rfl

lemma padZero_three {n : Nat} (h1 : 100 ≤ n) (h2 : n ≤ 999) :
    padZero 3 (decimalDigits n) =
      [digitChar (n / 100), digitChar (n / 10 % 10), digitChar (n % 10)] := by
  rw [decimalDigits_ge10 (by omega), decimalDigits_ge10 (by omega : 10 ≤ n / 10),
    decimalDigits_lt10 (by omega : n / 10 / 10 < 10), padZero]
  have e1 : n / 10 / 10 = n / 100 := by
    rw [Nat.div_div_eq_div_mul]
  rw [e1]
  rfl

lemma charIsDigit_elim {c : Char} (h : charIsDigit c = true) :
    48 ≤ c.toNat ∧ c.toNat ≤ 57 := by
  simpa [charIsDigit] using h

lemma digitChar_round {c : Char} (h : charIsDigit c = true) :
    digitChar (c.toNat - 48) = c := by
  obtain ⟨h1, h2⟩ := charIsDigit_elim h
  have : 48 + (c.toNat - 48) = c.toNat := by omega
  rw [digitChar, this, Char.ofNat_toNat]

/-- On a successfully constructed value every accessor recovers the field the
input digits encoded. -/
lemma accessors_of_ok {k : Digits} {kt : Kennitala} (hv : k.valid)
    (h : from_slice k = some (.ok kt)) :
    get_day kt = k.d0 * 10 + k.d1 ∧
    get_month kt = k.d2 * 10 + k.d3 ∧
    get_short_year kt = k.d4 * 10 + k.d5 ∧
    get_randoms kt = k.d6 * 100 + k.d7 * 10 + k.d8 ∧
    get_century_bit kt = (if k.d9 = 0 then 1 else 0) := by
  obtain ⟨hcs, hrnd, hcent, hm1, hm2, hd1, hd2, hpack⟩ := from_slice_ok_elim h
  obtain ⟨v0, v1, v2, v3, v4, v5, v6, v7, v8, v9⟩ := hv
  have hds := daysInMonthSpec_le (k.d2 * 10 + k.d3)
    (k.d4 * 10 + k.d5 + (if k.d9 = 0 then 2000 else 1900))
  have hkt : kt = ⟨packValue (k.d0 * 10 + k.d1) (k.d2 * 10 + k.d3)
      (k.d4 * 10 + k.d5) (k.d6 * 100 + k.d7 * 10 + k.d8)
      (if k.d9 = 0 then 1 else 0)⟩ := by
    cases kt
    simpa using hpack
  subst hkt
  have hbit : (if k.d9 = 0 then 1 else 0) < 2 := by split <;> omega
  exact ⟨get_day_packValue _ _ _ _ _ (by omega) (by omega) (by omega) (by omega) hbit,
    get_month_packValue _ _ _ _ _ (by omega) (by omega) (by omega) (by omega) hbit,
    get_short_year_packValue _ _ _ _ _ (by omega) (by omega) (by omega) (by omega) hbit,
    get_randoms_packValue _ _ _ _ _ (by omega) (by omega) (by omega) (by omega) hbit,
    get_century_bit_packValue _ _ _ _ _ (by omega) (by omega) (by omega) (by omega) hbit⟩

/-- Successful `Kennitala::new` in digit-value form: the input is exactly the
rendering of ten digit values on which `from_slice` succeeded. -/
lemma new_ok_elim2 {s : List Char} {kt : Kennitala}
    (h : new s = some (.ok kt)) :
    ∃ a : Digits, a.valid ∧
      s = [digitChar a.d0, digitChar a.d1, digitChar a.d2, digitChar a.d3,
        digitChar a.d4, digitChar a.d5, digitChar a.d6, digitChar a.d7,
        digitChar a.d8, digitChar a.d9] ∧
      from_slice a = some (.ok kt) := by
  obtain ⟨c0, c1, c2, c3, c4, c5, c6, c7, c8, c9, rfl, hdig, hfs⟩ := new_ok_elim h
  refine ⟨⟨c0.toNat - 48, c1.toNat - 48, c2.toNat - 48, c3.toNat - 48,
    c4.toNat - 48, c5.toNat - 48, c6.toNat - 48, c7.toNat - 48,
    c8.toNat - 48, c9.toNat - 48⟩, ?_, ?_, hfs⟩
  · have h0 := charIsDigit_elim (hdig c0 (by simp))
    have h1 := charIsDigit_elim (hdig c1 (by simp))
    have h2 := charIsDigit_elim (hdig c2 (by simp))
    have h3 := charIsDigit_elim (hdig c3 (by simp))
    have h4 := charIsDigit_elim (hdig c4 (by simp))
    have h5 := charIsDigit_elim (hdig c5 (by simp))
    have h6 := charIsDigit_elim (hdig c6 (by simp))
    have h7 := charIsDigit_elim (hdig c7 (by simp))
    have h8 := charIsDigit_elim (hdig c8 (by simp))
    have h9 := charIsDigit_elim (hdig c9 (by simp))
    refine ⟨?_, ?_, ?_, ?_, ?_, ?_, ?_, ?_, ?_, ?_⟩ <;> dsimp only <;> omega
  · simp only []
    rw [digitChar_round (hdig c0 (by simp)), digitChar_round (hdig c1 (by simp)),
      digitChar_round (hdig c2 (by simp)), digitChar_round (hdig c3 (by simp)),
      digitChar_round (hdig c4 (by simp)), digitChar_round (hdig c5 (by simp)),
      digitChar_round (hdig c6 (by simp)), digitChar_round (hdig c7 (by simp)),
      digitChar_round (hdig c8 (by simp)), digitChar_round (hdig c9 (by simp))]

lemma digitChar_toNat {n : Nat} (h : n ≤ 9) : (digitChar n).toNat = 48 + n := by
  interval_cases n <;> decide

lemma charIsDigit_digitChar {n : Nat} (h : n ≤ 9) : charIsDigit (digitChar n) = true := by
  interval_cases n <;> decide

/-- `from_slice` reports `InvalidChecksum` exactly when the stored ninth digit
disagrees with the recomputed checksum. -/
lemma from_slice_checksum_iff (k : Digits) :
    from_slice k = some (.error .InvalidChecksum) ↔
      k.d8 ≠ calculate_checksum_digit k := by
  constructor
  · intro h heq
    simp only [from_slice] at h
    rw [if_neg (show ¬(k.d8 ≠ calculate_checksum_digit k) by omega)] at h
    repeat' split at h
    all_goals simp_all
  · intro hne
    simp only [from_slice]
    rw [if_pos hne]

/-- When every validation rule passes, `from_slice` succeeds and returns the
packed value. -/
lemma from_slice_ok_intro (k : Digits)
    (hcs : k.d8 = calculate_checksum_digit k)
    (hrnd : ¬(k.d6 * 10 + k.d7 < 20))
    (hcent : k.d9 = 0 ∨ k.d9 = 9)
    (hm : ¬(k.d2 * 10 + k.d3 > 12 ∨ k.d2 * 10 + k.d3 = 0))
    (hd : ¬(k.d0 * 10 + k.d1 > daysInMonthSpec (k.d2 * 10 + k.d3)
        (k.d4 * 10 + k.d5 + (if k.d9 = 0 then 2000 else 1900)) ∨
      k.d0 * 10 + k.d1 = 0)) :
    from_slice k = some (.ok ⟨packValue (k.d0 * 10 + k.d1) (k.d2 * 10 + k.d3)
      (k.d4 * 10 + k.d5) (k.d6 * 100 + k.d7 * 10 + k.d8)
      (if k.d9 = 0 then 1 else 0)⟩) := by
  simp only [from_slice]
  rw [if_neg (by omega), if_neg hrnd, if_neg (by tauto), if_neg hm,
    days_in_month_eq_spec (k.d2 * 10 + k.d3)
      (k.d4 * 10 + k.d5 + (if k.d9 = 0 then 2000 else 1900)) (by omega) (by omega)]
  dsimp only
  rw [if_neg hd]
  rfl

/-- `from_slice` is total: the `days_in_month` panic arm is unreachable
because the month is validated first. -/
lemma from_slice_isSome (k : Digits) : (from_slice k).isSome = true := by
  simp only [from_slice]
  split
  · rfl
  split
  · rfl
  split
  · rfl
  split
  · rfl
  next hcs hrnd hcent hmonth =>
  push_neg at hmonth
  rw [days_in_month_eq_spec (k.d2 * 10 + k.d3)
      (k.d4 * 10 + k.d5 + (if k.d9 = 0 then 2000 else 1900)) (by omega) (by omega)]
  dsimp only
  repeat' split
  all_goals rfl

/-- A list of length 10 is literally a ten-element list. -/
lemma length_ten_elim {α : Type} {s : List α} (h : s.length = 10) :
    ∃ a0 a1 a2 a3 a4 a5 a6 a7 a8 a9 : α,
      s = [a0, a1, a2, a3, a4, a5, a6, a7, a8, a9] := by
  obtain _ | ⟨a0, s⟩ := s; · simp at h
  obtain _ | ⟨a1, s⟩ := s; · simp at h
  obtain _ | ⟨a2, s⟩ := s; · simp at h
  obtain _ | ⟨a3, s⟩ := s; · simp at h
  obtain _ | ⟨a4, s⟩ := s; · simp at h
  obtain _ | ⟨a5, s⟩ := s; · simp at h
  obtain _ | ⟨a6, s⟩ := s; · simp at h
  obtain _ | ⟨a7, s⟩ := s; · simp at h
  obtain _ | ⟨a8, s⟩ := s; · simp at h
  obtain _ | ⟨a9, s⟩ := s; · simp at h
  obtain _ | ⟨a10, s⟩ := s
  · exact ⟨a0, a1, a2, a3, a4, a5, a6, a7, a8, a9, rfl⟩
  · simp at h

/-- C1.  Round-trip: for every string `s` on which `Kennitala::new` succeeds,
the `Display` implementation reproduces `s` character for character:
`format(parse(s)) = s`. -/
theorem C1_roundtrip {s : List Char} {kt : Kennitala}
    (h : new s = some (.ok kt)) : display kt = s := by
  obtain ⟨a, hv, rfl, hfs⟩ := new_ok_elim2 h
  obtain ⟨v0, v1, v2, v3, v4, v5, v6, v7, v8, v9⟩ := hv
  obtain ⟨hday, hmon, hyr, hrnd, hbit⟩ := accessors_of_ok
    ⟨v0, v1, v2, v3, v4, v5, v6, v7, v8, v9⟩ hfs
  obtain ⟨hcs, hrnd20, hcent, hm1, hm2, hd1, hd2, hpack⟩ := from_slice_ok_elim hfs
  have hsc : get_short_century kt = a.d9 := by
    rw [get_short_century, hbit]
    rcases hcent with h9 | h9 <;> simp [h9]
  rw [display, hday, hmon, hyr, hrnd, hsc,
    padZero_two (by omega), padZero_two (by omega), padZero_two (by omega),
    padZero_three (by omega) (by omega), decimalDigits_lt10 (by omega)]
  have e0 : (a.d0 * 10 + a.d1) / 10 = a.d0 := by omega
  have e1 : (a.d0 * 10 + a.d1) % 10 = a.d1 := by omega
  have e2 : (a.d2 * 10 + a.d3) / 10 = a.d2 := by omega
  have e3 : (a.d2 * 10 + a.d3) % 10 = a.d3 := by omega
  have e4 : (a.d4 * 10 + a.d5) / 10 = a.d4 := by omega
  have e5 : (a.d4 * 10 + a.d5) % 10 = a.d5 := by omega
  have e6 : (a.d6 * 100 + a.d7 * 10 + a.d8) / 100 = a.d6 := by omega
  have e7 : (a.d6 * 100 + a.d7 * 10 + a.d8) / 10 % 10 = a.d7 := by omega
  have e8 : (a.d6 * 100 + a.d7 * 10 + a.d8) % 10 = a.d8 := by omega
  rw [e0, e1, e2, e3, e4, e5, e6, e7, e8]
  rfl

theorem C1_roundtrip_witness : display ⟨86245727⟩ = "3110002920".toList :=
  C1_roundtrip (s := "3110002920".toList) (by decide)

/-- C2.  Checksum law: `from_slice` fails with `InvalidChecksum` exactly when
the ninth digit differs from
`11 - ((3 d0 + 2 d1 + 7 d2 + 6 d3 + 5 d4 + 4 d5 + 3 d6 + 2 d7) mod 11)`
(with the mod-0 case mapped to 0), and every successfully constructed value
stores exactly that checksum as its ninth digit. -/
theorem C2_checksum_law (k : Digits) :
    (from_slice k = some (.error .InvalidChecksum) ↔
      k.d8 ≠ (if (3 * k.d0 + 2 * k.d1 + 7 * k.d2 + 6 * k.d3 + 5 * k.d4 +
          4 * k.d5 + 3 * k.d6 + 2 * k.d7) % 11 = 0 then 0
        else 11 - (3 * k.d0 + 2 * k.d1 + 7 * k.d2 + 6 * k.d3 + 5 * k.d4 +
          4 * k.d5 + 3 * k.d6 + 2 * k.d7) % 11)) ∧
    (∀ kt : Kennitala, from_slice k = some (.ok kt) →
      k.d8 = (if (3 * k.d0 + 2 * k.d1 + 7 * k.d2 + 6 * k.d3 + 5 * k.d4 +
          4 * k.d5 + 3 * k.d6 + 2 * k.d7) % 11 = 0 then 0
        else 11 - (3 * k.d0 + 2 * k.d1 + 7 * k.d2 + 6 * k.d3 + 5 * k.d4 +
          4 * k.d5 + 3 * k.d6 + 2 * k.d7) % 11)) := by
  have hsum : k.d0 * 3 + k.d1 * 2 + k.d2 * 7 + k.d3 * 6 + k.d4 * 5 + k.d5 * 4 +
      k.d6 * 3 + k.d7 * 2 =
      3 * k.d0 + 2 * k.d1 + 7 * k.d2 + 6 * k.d3 + 5 * k.d4 + 4 * k.d5 +
        3 * k.d6 + 2 * k.d7 := by ring
  have hcalc : calculate_checksum_digit k =
      (if (3 * k.d0 + 2 * k.d1 + 7 * k.d2 + 6 * k.d3 + 5 * k.d4 +
          4 * k.d5 + 3 * k.d6 + 2 * k.d7) % 11 = 0 then 0
        else 11 - (3 * k.d0 + 2 * k.d1 + 7 * k.d2 + 6 * k.d3 + 5 * k.d4 +
          4 * k.d5 + 3 * k.d6 + 2 * k.d7) % 11) := by
    simp only [calculate_checksum_digit]
    rw [hsum]
  constructor
  · rw [from_slice_checksum_iff, hcalc]
  · intro kt h
    rw [← hcalc]
    exact (from_slice_ok_elim h).1

theorem C2_checksum_law_witness :
    from_slice ⟨1, 7, 0, 3, 7, 1, 5, 9, 4, 9⟩ = some (.error .InvalidChecksum) :=
  (C2_checksum_law ⟨1, 7, 0, 3, 7, 1, 5, 9, 4, 9⟩).1.mpr (by decide)

/-- C3.  Accessor ranges and century mapping for every successfully parsed
value: day in [1, 31], month in [1, 12], short year in [0, 99], year in
[1900, 2099], short century in {0, 9}, randoms in [20, 999]; the short century
equals the literal tenth input digit, with digit 0 meaning base 2000 and
digit 9 meaning base 1900. -/
theorem C3_accessor_ranges {s : List Char} {kt : Kennitala}
    (h : new s = some (.ok kt)) :
    1 ≤ get_day kt ∧ get_day kt ≤ 31 ∧
    1 ≤ get_month kt ∧ get_month kt ≤ 12 ∧
    get_short_year kt ≤ 99 ∧
    1900 ≤ get_year kt ∧ get_year kt ≤ 2099 ∧
    (get_short_century kt = 0 ∨ get_short_century kt = 9) ∧
    20 ≤ get_randoms kt ∧ get_randoms kt ≤ 999 ∧
    get_short_century kt = (s.getD 9 '0').toNat - 48 ∧
    ((s.getD 9 '0').toNat - 48 = 0 → get_year kt = get_short_year kt + 2000) ∧
    ((s.getD 9 '0').toNat - 48 = 9 → get_year kt = get_short_year kt + 1900) := by
  obtain ⟨a, hv, rfl, hfs⟩ := new_ok_elim2 h
  obtain ⟨v0, v1, v2, v3, v4, v5, v6, v7, v8, v9⟩ := hv
  obtain ⟨hday, hmon, hyr, hrnd, hbit⟩ := accessors_of_ok
    ⟨v0, v1, v2, v3, v4, v5, v6, v7, v8, v9⟩ hfs
  obtain ⟨hcs, hrnd20, hcent, hm1, hm2, hd1, hd2, hpack⟩ := from_slice_ok_elim hfs
  have hds := daysInMonthSpec_le (a.d2 * 10 + a.d3)
    (a.d4 * 10 + a.d5 + (if a.d9 = 0 then 2000 else 1900))
  have h9 : (([digitChar a.d0, digitChar a.d1, digitChar a.d2, digitChar a.d3,
      digitChar a.d4, digitChar a.d5, digitChar a.d6, digitChar a.d7,
      digitChar a.d8, digitChar a.d9] : List Char).getD 9 '0').toNat - 48 = a.d9 := by
    simp only [List.getD, List.get?, Option.getD]
    rw [digitChar_toNat v9]
    omega
  have hsc : get_short_century kt = a.d9 := by
    rw [get_short_century, hbit]
    rcases hcent with h | h <;> simp [h]
  have hyear : get_year kt = get_short_year kt + (if a.d9 = 0 then 2000 else 1900) := by
    rw [get_year, hbit]
    rcases hcent with h | h <;> simp [h]
  rw [h9, hday, hmon, hyr, hrnd, hsc, hyear]
  refine ⟨by omega, by omega, by omega, by omega, by omega, ?_, ?_, by omega,
    by omega, by omega, by omega, ?_, ?_⟩
  · rw [hyr]; split <;> omega
  · rw [hyr]; split <;> omega
  · intro h0; rw [if_pos h0, hyr]
  · intro h0; rw [if_neg (by omega), hyr]

theorem C3_accessor_ranges_witness : 1 ≤ get_day (⟨38899313⟩ : Kennitala) :=
  (C3_accessor_ranges (s := "1703715939".toList) (by decide)).1

/-- C10.  Tightened randoms bound: the two leading random digits are checked
to be at least 20, so the stored three-digit randoms group of any successfully
constructed value lies in [200, 999], not merely [20, 999]. -/
theorem C10_randoms_tight {k : Digits} {kt : Kennitala} (hv : k.valid)
    (h : from_slice k = some (.ok kt)) :
    200 ≤ get_randoms kt ∧ get_randoms kt ≤ 999 := by
  obtain ⟨hday, hmon, hyr, hrnd, hbit⟩ := accessors_of_ok hv h
  obtain ⟨hcs, hrnd20, hcent, hm1, hm2, hd1, hd2, hpack⟩ := from_slice_ok_elim h
  obtain ⟨v0, v1, v2, v3, v4, v5, v6, v7, v8, v9⟩ := hv
  rw [hrnd]
  omega

theorem C10_randoms_tight_witness : 200 ≤ get_randoms (⟨38899313⟩ : Kennitala) :=
  (C10_randoms_tight (k := ⟨1, 7, 0, 3, 7, 1, 5, 9, 3, 9⟩) (by decide) (by decide)).1

/-- C5.  Structural pre-checks: a string that is not exactly ten digit
characters fails with `InvalidNumber` when it contains a non-digit character
(this check fires first), and otherwise with `InvalidLength` carrying the
observed length; never with any later validation error. -/
theorem C5_structural_prechecks (s : List Char)
    (h : ¬(s.all charIsDigit = true ∧ s.length = 10)) :
    new s = some (.error
      (if s.all charIsDigit then .InvalidLength s.length else .InvalidNumber)) := by
  by_cases hd : s.all charIsDigit = true
  · have hl : s.length ≠ 10 := by tauto
    simp only [new]
    rw [if_neg (not_not_intro hd), if_pos hl, if_pos hd]
  · simp only [new]
    rw [if_pos hd, if_neg hd]

theorem C5_structural_prechecks_witness :
    new "9999".toList = some (.error (.InvalidLength 4)) := by
  have h := C5_structural_prechecks "9999".toList (by decide)
  rw [if_pos (by decide)] at h
  exact h

/-- C8.  Totality: on every input string whatsoever `Kennitala::new` returns a
value (an `Ok` or an error) and never reaches a panic: the `try_from` unwrap
is unreachable and `days_in_month` is only indexed with a checked month. -/
theorem C8_no_panic (s : List Char) : (new s).isSome = true := by
  simp only [new]
  split
  · rfl
  split
  · rfl
  next hdig hlen =>
  have hlen10 : s.length = 10 := by omega
  obtain ⟨a0, a1, a2, a3, a4, a5, a6, a7, a8, a9, rfl⟩ := length_ten_elim hlen10
  exact from_slice_isSome _

/-- C9 (counterexample).  The raw checksum computation never takes the value
11: the weighted sum taken mod 11 lies in [0, 10], the 0 case is mapped to 0,
and `11 - r` for `r` in [1, 10] lies in [1, 10]. -/
theorem C9_counterexample : ¬∃ k : Digits, calculate_checksum_digit k = 11 := by
  rintro ⟨k, hk⟩
  simp only [calculate_checksum_digit] at hk
  split at hk <;> omega

/-- C9 (amended).  For some combination of the first eight digits the raw
checksum computation yields 10 (not 11); any raw result greater than 9 can
never equal the supplied ninth digit, so every such input fails with
`InvalidChecksum` rather than being accepted or crashing. -/
theorem C9_raw_checksum_overflow :
    (∃ k : Digits, k.valid ∧ calculate_checksum_digit k = 10) ∧
    (∀ k : Digits, k.valid → 9 < calculate_checksum_digit k →
      from_slice k = some (.error .InvalidChecksum)) := by
  constructor
  · exact ⟨⟨4, 0, 0, 0, 0, 0, 0, 0, 0, 0⟩, by decide, by decide⟩
  · intro k hv hgt
    obtain ⟨v0, v1, v2, v3, v4, v5, v6, v7, v8, v9⟩ := hv
    exact (from_slice_checksum_iff k).mpr (by omega)

theorem C9_raw_checksum_overflow_witness :
    from_slice ⟨4, 0, 0, 0, 0, 0, 0, 0, 0, 0⟩ = some (.error .InvalidChecksum) :=
  C9_raw_checksum_overflow.2 ⟨4, 0, 0, 0, 0, 0, 0, 0, 0, 0⟩ (by decide) (by decide)

/-- C4.  Fixed validation order: on a ten-digit input the reported error is
the one for the first violated rule in the order checksum, random digits,
century, month, day; in particular any input violating both the checksum rule
and a later rule reports `InvalidChecksum`. -/
theorem C4_validation_order (k : Digits) (hv : k.valid) :
    (k.d8 ≠ calculate_checksum_digit k →
      from_slice k = some (.error .InvalidChecksum)) ∧
    (k.d8 = calculate_checksum_digit k → k.d6 * 10 + k.d7 < 20 →
      from_slice k = some (.error .InvalidRandomDigits)) ∧
    (k.d8 = calculate_checksum_digit k → ¬(k.d6 * 10 + k.d7 < 20) →
      ¬(k.d9 = 0 ∨ k.d9 = 9) →
      from_slice k = some (.error .InvalidCentury)) ∧
    (k.d8 = calculate_checksum_digit k → ¬(k.d6 * 10 + k.d7 < 20) →
      (k.d9 = 0 ∨ k.d9 = 9) → (k.d2 * 10 + k.d3 > 12 ∨ k.d2 * 10 + k.d3 = 0) →
      from_slice k = some (.error .InvalidMonth)) ∧
    (k.d8 = calculate_checksum_digit k → ¬(k.d6 * 10 + k.d7 < 20) →
      (k.d9 = 0 ∨ k.d9 = 9) → ¬(k.d2 * 10 + k.d3 > 12 ∨ k.d2 * 10 + k.d3 = 0) →
      (k.d0 * 10 + k.d1 > daysInMonthSpec (k.d2 * 10 + k.d3)
          (k.d4 * 10 + k.d5 + (if k.d9 = 0 then 2000 else 1900)) ∨
        k.d0 * 10 + k.d1 = 0) →
      from_slice k = some (.error .InvalidDay)) := by
  refine ⟨?_, ?_, ?_, ?_, ?_⟩
  · intro h1
    exact (from_slice_checksum_iff k).mpr h1
  · intro h1 h2
    simp only [from_slice]
    rw [if_neg (show ¬(k.d8 ≠ calculate_checksum_digit k) by omega), if_pos h2]
  · intro h1 h2 h3
    simp only [from_slice]
    rw [if_neg (show ¬(k.d8 ≠ calculate_checksum_digit k) by omega), if_neg h2,
      if_pos h3]
  · intro h1 h2 h3 h4
    simp only [from_slice]
    rw [if_neg (show ¬(k.d8 ≠ calculate_checksum_digit k) by omega), if_neg h2,
      if_neg (not_not_intro h3), if_pos h4]
  · intro h1 h2 h3 h4 h5
    simp only [from_slice]
    rw [if_neg (show ¬(k.d8 ≠ calculate_checksum_digit k) by omega), if_neg h2,
      if_neg (not_not_intro h3), if_neg h4,
      days_in_month_eq_spec (k.d2 * 10 + k.d3)
        (k.d4 * 10 + k.d5 + (if k.d9 = 0 then 2000 else 1900)) (by omega) (by omega)]
    dsimp only
    rw [if_pos h5]

theorem C4_validation_order_witness :
    from_slice ⟨0, 1, 0, 1, 0, 0, 0, 0, 3, 9⟩ =
      some (.error .InvalidRandomDigits) :=
  (C4_validation_order ⟨0, 1, 0, 1, 0, 0, 0, 0, 3, 9⟩ (by decide)).2.1
    (by decide) (by decide)

/-- C6.  Day validity against the Gregorian calendar: once the checksum,
random-digit, century and month checks pass, `from_slice` fails with
`InvalidDay` exactly when the day is 0 or exceeds the canonical day count of
the month in the fully resolved year (February 29 exactly in Gregorian leap
years). -/
theorem C6_day_gregorian (k : Digits) (hv : k.valid)
    (hcs : k.d8 = calculate_checksum_digit k)
    (hrnd : ¬(k.d6 * 10 + k.d7 < 20))
    (hcent : k.d9 = 0 ∨ k.d9 = 9)
    (hm : ¬(k.d2 * 10 + k.d3 > 12 ∨ k.d2 * 10 + k.d3 = 0)) :
    (from_slice k = some (.error .InvalidDay) ↔
      (k.d0 * 10 + k.d1 > daysInMonthSpec (k.d2 * 10 + k.d3)
          (k.d4 * 10 + k.d5 + (if k.d9 = 0 then 2000 else 1900)) ∨
        k.d0 * 10 + k.d1 = 0)) := by
  constructor
  · intro h
    by_contra hd
    rw [from_slice_ok_intro k hcs hrnd hcent hm hd] at h
    simp at h
  · intro hd
    simp only [from_slice]
    rw [if_neg (show ¬(k.d8 ≠ calculate_checksum_digit k) by omega), if_neg hrnd,
      if_neg (not_not_intro hcent), if_neg hm,
      days_in_month_eq_spec (k.d2 * 10 + k.d3)
        (k.d4 * 10 + k.d5 + (if k.d9 = 0 then 2000 else 1900)) (by omega) (by omega)]
    dsimp only
    rw [if_pos hd]

theorem C6_day_gregorian_witness :
    from_slice ⟨3, 2, 0, 1, 0, 0, 2, 0, 8, 9⟩ = some (.error .InvalidDay) :=
  (C6_day_gregorian ⟨3, 2, 0, 1, 0, 0, 2, 0, 8, 9⟩ (by decide) (by decide)
    (by decide) (by decide) (by decide)).mpr (by decide)

lemma numDigitsFuel_congr : ∀ f g n, n ≤ f → n ≤ g →
    numDigitsFuel f n = numDigitsFuel g n := by
  intro f
  induction f with
  | zero =>
    intro g n hf hg
    interval_cases n
    cases g <;> simp [numDigitsFuel]
  | succ f ih =>
    intro g n hf hg
    cases g with
    | zero =>
      interval_cases n
      simp [numDigitsFuel]
    | succ g =>
      by_cases h0 : n = 0
      · simp [numDigitsFuel, h0]
      · have h1 : n / 10 < n := Nat.div_lt_self (by omega) (by omega)
        simp only [numDigitsFuel, if_neg h0]
        rw [ih g (n / 10) (by omega) (by omega)]

lemma numDigits_zero : numDigits 0 = 0 := rfl

lemma numDigits_pos {n : Nat} (h : 0 < n) :
    numDigits n = numDigits (n / 10) + 1 := by
  obtain ⟨m, rfl⟩ : ∃ m, n = m + 1 := ⟨n - 1, by omega⟩
  show numDigitsFuel (m + 1) (m + 1) = _
  simp only [numDigitsFuel, if_neg (by omega : ¬m + 1 = 0)]
  congr 1
  exact numDigitsFuel_congr m ((m + 1) / 10) ((m + 1) / 10) (by omega) le_rfl

lemma numDigits_le_iff : ∀ k n : Nat, numDigits n ≤ k ↔ n < 10 ^ k := by
  intro k
  induction k with
  | zero =>
    intro n
    simp only [pow_zero, Nat.lt_one_iff]
    constructor
    · intro h
      by_contra h0
      rw [numDigits_pos (by omega)] at h
      omega
    · rintro rfl
      simp [numDigits_zero]
  | succ k ih =>
    intro n
    by_cases h0 : n = 0
    · subst h0
      simp only [numDigits_zero]
      constructor
      · intro _
        exact Nat.pos_pow_of_pos (k + 1) (by omega)
      · intro _
        omega
    · rw [numDigits_pos (by omega)]
      constructor
      · intro h
        have h2 : n / 10 < 10 ^ k := (ih (n / 10)).mp (by omega)
        rw [Nat.div_lt_iff_lt_mul (by omega : (0:Nat) < 10)] at h2
        calc n < 10 ^ k * 10 := h2
          _ = 10 ^ (k + 1) := (pow_succ 10 k).symm
      · intro h
        have h2 : n / 10 < 10 ^ k := by
          rw [Nat.div_lt_iff_lt_mul (by omega : (0:Nat) < 10)]
          calc n < 10 ^ (k + 1) := h
            _ = 10 ^ k * 10 := pow_succ 10 k
        have := (ih (n / 10)).mpr h2
        omega

lemma digitsOfLen_length : ∀ w n, (digitsOfLen w n).length = w := by
  intro w
  induction w with
  | zero => intro n; rfl
  | succ w ih => intro n; simp [digitsOfLen, ih]

lemma digitsOfLen_le_nine : ∀ w n, ∀ x ∈ digitsOfLen w n, x ≤ 9 := by
  intro w
  induction w with
  | zero =>
    intro n x hx
    simp [digitsOfLen] at hx
  | succ w ih =>
    intro n x hx
    simp only [digitsOfLen, List.mem_append, List.mem_singleton] at hx
    rcases hx with hx | rfl
    · exact ih _ _ hx
    · omega

lemma digitsOfLen_zero : ∀ w, digitsOfLen w 0 = List.replicate w 0 := by
  intro w
  induction w with
  | zero => rfl
  | succ w ih =>
    show digitsOfLen w (0 / 10) ++ [0 % 10] = _
    rw [Nat.zero_div, ih, List.replicate_succ']

lemma digitsOfLen_split : ∀ v u n,
    digitsOfLen (u + v) n = digitsOfLen u (n / 10 ^ v) ++ digitsOfLen v n := by
  intro v
  induction v with
  | zero =>
    intro u n
    simp [digitsOfLen]
  | succ v ih =>
    intro u n
    show digitsOfLen (u + v + 1) n = _
    have e : n / 10 / 10 ^ v = n / 10 ^ (v + 1) := by
      rw [Nat.div_div_eq_div_mul, pow_succ, Nat.mul_comm]
    calc digitsOfLen (u + v) (n / 10) ++ [n % 10]
        = (digitsOfLen u (n / 10 / 10 ^ v) ++ digitsOfLen v (n / 10)) ++ [n % 10] := by
          rw [ih u (n / 10)]
      _ = digitsOfLen u (n / 10 ^ (v + 1)) ++ (digitsOfLen v (n / 10) ++ [n % 10]) := by
          rw [e, List.append_assoc]
      _ = digitsOfLen u (n / 10 ^ (v + 1)) ++ digitsOfLen (v + 1) n := rfl

/-- Invariant of the digit-writing loop: with enough room it terminates with
the digit count added to `i` and the digits written into the tail of the
array. -/
lemma kt_to_array_loopFuel_spec : ∀ f n i a, n ≤ f → a.length = 10 →
    i + numDigits n ≤ 10 →
    kt_to_array_loopFuel f n i a =
      some (i + numDigits n,
        a.take (10 - i - numDigits n) ++ digitsOfLen (numDigits n) n ++
          a.drop (10 - i)) := by
  intro f
  induction f with
  | zero =>
    intro n i a hf hlen hi
    interval_cases n
    show some (i, a) = _
    rw [numDigits_zero]
    show _ = some (i + 0, a.take (10 - i - 0) ++ [] ++ a.drop (10 - i))
    rw [List.append_nil, Nat.sub_zero, List.take_append_drop]
    rfl
  | succ f ih =>
    intro n i a hf hlen hi
    by_cases h0 : n = 0
    · subst h0
      show some (i, a) = _
      rw [numDigits_zero]
      show _ = some (i + 0, a.take (10 - i - 0) ++ [] ++ a.drop (10 - i))
      rw [List.append_nil, Nat.sub_zero, List.take_append_drop]
      rfl
    · have hnd := numDigits_pos (show 0 < n by omega)
      have hnd1 : 1 ≤ numDigits n := by omega
      have hi9 : ¬9 < i := by omega
      show (if n = 0 then some (i, a)
        else if 9 < i then none
        else kt_to_array_loopFuel f (n / 10) (i + 1) (a.set (9 - i) (n % 10))) = _
      have hfle : n / 10 ≤ f := by
        have := Nat.div_lt_self (show 0 < n by omega) (show 1 < 10 by omega)
        omega
      have hlen2 : (a.set (9 - i) (n % 10)).length = 10 := by simp [hlen]
      have hile : i + 1 + numDigits (n / 10) ≤ 10 := by omega
      rw [if_neg h0, if_neg hi9,
        ih (n / 10) (i + 1) (a.set (9 - i) (n % 10)) hfle hlen2 hile]
      have e1 : i + 1 + numDigits (n / 10) = i + numDigits n := by omega
      have e2 : 10 - (i + 1) - numDigits (n / 10) = 10 - i - numDigits n := by omega
      have e3 : 10 - (i + 1) = 9 - i := by omega
      have htake : (a.set (9 - i) (n % 10)).take (10 - i - numDigits n) =
          a.take (10 - i - numDigits n) := by
        rw [List.set_take]
        exact List.set_eq_of_length_le
          (le_trans (List.length_take_le _ _) (by omega))
      have hdrop : (a.set (9 - i) (n % 10)).drop (9 - i) =
          n % 10 :: a.drop (10 - i) := by
        rw [List.drop_set, if_neg (by omega), Nat.sub_self,
          List.drop_eq_getElem_cons (by omega : 9 - i < a.length)]
        have e4 : 9 - i + 1 = 10 - i := by omega
        show (n % 10) :: a.drop (9 - i + 1) = _
        rw [e4]
      rw [e1, e2, e3, htake, hdrop, hnd]
      simp [digitsOfLen, List.append_assoc]

/-- Evaluating `kt_to_array` on the all-zero array: fewer than nine digits is
an `InvalidLength` carrying the digit count, otherwise the array holds the ten
zero-padded decimal digits of `n`. -/
lemma kt_to_array_eval {n : Nat} (h10 : n < 10 ^ 10) :
    kt_to_array n (List.replicate 10 0) =
      some (if numDigits n < 9 then .error (.InvalidLength (numDigits n))
        else .ok (digitsOfLen 10 n)) := by
  have hle : numDigits n ≤ 10 := (numDigits_le_iff 10 n).mpr h10
  have hloop := kt_to_array_loopFuel_spec n n 0 (List.replicate 10 0) le_rfl
    (by simp) (by omega)
  rw [kt_to_array, kt_to_array_loop, hloop]
  have harr : (List.replicate 10 (0 : Nat)).take (10 - 0 - numDigits n) ++
      digitsOfLen (numDigits n) n ++ (List.replicate 10 (0 : Nat)).drop (10 - 0) =
      digitsOfLen 10 n := by
    have hdrop : (List.replicate 10 (0 : Nat)).drop (10 - 0) = [] := by simp
    have htake : (List.replicate 10 (0 : Nat)).take (10 - 0 - numDigits n) =
        List.replicate (10 - numDigits n) 0 := by
      rw [List.take_replicate]
      congr 1
      omega
    rw [hdrop, htake, List.append_nil, ← digitsOfLen_zero,
      ← Nat.div_eq_of_lt ((numDigits_le_iff (numDigits n) n).mp le_rfl),
      ← digitsOfLen_split]
    congr 1
    omega
  rw [harr]
  dsimp only
  simp only [Nat.zero_add]
  by_cases h9 : numDigits n < 9
  · rw [if_pos h9, if_pos h9]
  · rw [if_neg h9, if_neg h9]

lemma decimalDigits_eq_map : ∀ n : Nat, 1 ≤ n →
    decimalDigits n = (digitsOfLen (numDigits n) n).map digitChar := by
  intro n
  induction n using Nat.strong_induction_on with
  | _ n ih =>
  intro h1
  by_cases h10 : n < 10
  · have hq : n / 10 = 0 := by omega
    have hnd : numDigits n = 1 := by
      rw [numDigits_pos (by omega), hq, numDigits_zero]
    have hm : n % 10 = n := by omega
    rw [decimalDigits_lt10 h10, hnd]
    show _ = ([] ++ [n % 10]).map digitChar
    rw [hm, List.nil_append, List.map_singleton]
  · have hlt : n / 10 < n := Nat.div_lt_self (by omega) (by omega)
    have hq1 : 1 ≤ n / 10 := by omega
    rw [decimalDigits_ge10 (by omega), numDigits_pos (show 0 < n by omega),
      ih (n / 10) hlt hq1]
    show _ = (digitsOfLen (numDigits (n / 10)) (n / 10) ++ [n % 10]).map digitChar
    rw [List.map_append, List.map_singleton]

lemma decimalDigits_length {n : Nat} (h : 1 ≤ n) :
    (decimalDigits n).length = numDigits n := by
  rw [decimalDigits_eq_map n h, List.length_map, digitsOfLen_length]

/-- Padding the decimal rendering of `n < 10 ^ 10` to width ten gives exactly
the ten zero-padded digits. -/
lemma padZero_ten {n : Nat} (h1 : 1 ≤ n) (h10 : n < 10 ^ 10) :
    padZero 10 (decimalDigits n) = (digitsOfLen 10 n).map digitChar := by
  have hL : numDigits n ≤ 10 := (numDigits_le_iff 10 n).mpr h10
  rw [padZero, decimalDigits_length h1, decimalDigits_eq_map n h1]
  calc List.replicate (10 - numDigits n) '0' ++
        (digitsOfLen (numDigits n) n).map digitChar
      = (List.replicate (10 - numDigits n) 0).map digitChar ++
        (digitsOfLen (numDigits n) n).map digitChar := by
        rw [List.map_replicate, digitChar_zero]
    _ = ((List.replicate (10 - numDigits n) 0) ++
        digitsOfLen (numDigits n) n).map digitChar := by
        rw [List.map_append]
    _ = (digitsOfLen 10 n).map digitChar := by
        have e10 : 10 - numDigits n + numDigits n = 10 := by omega
        rw [← digitsOfLen_zero,
          ← Nat.div_eq_of_lt ((numDigits_le_iff (numDigits n) n).mp le_rfl),
          ← digitsOfLen_split, e10]

/-- `Kennitala::new` on the rendering of ten digit values is `from_slice` on
those values. -/
lemma new_map_digitChar {l : List Nat} (hlen : l.length = 10)
    (hle : ∀ x ∈ l, x ≤ 9) :
    new (l.map digitChar) = from_slice (listToDigits l) := by
  obtain ⟨a0, a1, a2, a3, a4, a5, a6, a7, a8, a9, rfl⟩ := length_ten_elim hlen
  have h0 : a0 ≤ 9 := hle _ (by simp)
  have h1 : a1 ≤ 9 := hle _ (by simp)
  have h2 : a2 ≤ 9 := hle _ (by simp)
  have h3 : a3 ≤ 9 := hle _ (by simp)
  have h4 : a4 ≤ 9 := hle _ (by simp)
  have h5 : a5 ≤ 9 := hle _ (by simp)
  have h6 : a6 ≤ 9 := hle _ (by simp)
  have h7 : a7 ≤ 9 := hle _ (by simp)
  have h8 : a8 ≤ 9 := hle _ (by simp)
  have h9 : a9 ≤ 9 := hle _ (by simp)
  have hall : ([a0, a1, a2, a3, a4, a5, a6, a7, a8, a9].map digitChar).all
      charIsDigit = true := by
    simp only [List.map, List.all_cons, List.all_nil, Bool.and_true,
      charIsDigit_digitChar h0, charIsDigit_digitChar h1,
      charIsDigit_digitChar h2, charIsDigit_digitChar h3,
      charIsDigit_digitChar h4, charIsDigit_digitChar h5,
      charIsDigit_digitChar h6, charIsDigit_digitChar h7,
      charIsDigit_digitChar h8, charIsDigit_digitChar h9, Bool.and_self]
  have e : ∀ m : Nat, m ≤ 9 → (digitChar m).toNat - 48 = m := by
    intro m hm
    rw [digitChar_toNat hm]
    omega
  simp only [new]
  rw [if_neg (not_not_intro hall), if_neg (by simp)]
  show from_slice ⟨(digitChar a0).toNat - 48, (digitChar a1).toNat - 48,
    (digitChar a2).toNat - 48, (digitChar a3).toNat - 48,
    (digitChar a4).toNat - 48, (digitChar a5).toNat - 48,
    (digitChar a6).toNat - 48, (digitChar a7).toNat - 48,
    (digitChar a8).toNat - 48, (digitChar a9).toNat - 48⟩ =
    from_slice ⟨a0, a1, a2, a3, a4, a5, a6, a7, a8, a9⟩
  rw [e a0 h0, e a1 h1, e a2 h2, e a3 h3, e a4 h4, e a5 h5, e a6 h6, e a7 h7,
    e a8 h8, e a9 h9]

/-- C7.  The numeric constructor agrees with the text path: for a `u32` with
at least nine significant decimal digits, `from_u32` returns exactly what
`Kennitala::new` returns on the ten-digit zero-padded decimal string; with
fewer than nine digits it fails with `InvalidLength` (carrying the digit
count). -/
theorem C7_from_u32_matches_text (n : Nat) (hu : n < 4294967296) :
    (100000000 ≤ n → from_u32 n = new (padZero 10 (decimalDigits n))) ∧
    (n < 100000000 → from_u32 n = some (.error (.InvalidLength (numDigits n)))) := by
  have h10 : n < 10 ^ 10 := lt_of_lt_of_le hu (by norm_num)
  have hktarr := kt_to_array_eval h10
  constructor
  · intro h9
    have hL9 : 9 ≤ numDigits n := by
      by_contra hcon
      have := (numDigits_le_iff 8 n).mp (by omega)
      norm_num at this
      omega
    rw [from_u32, hktarr, if_neg (by omega)]
    dsimp only
    rw [padZero_ten (by omega) h10,
      new_map_digitChar (by rw [digitsOfLen_length]) (digitsOfLen_le_nine 10 n)]
  · intro hlt
    have hL : numDigits n ≤ 8 := (numDigits_le_iff 8 n).mpr (by norm_num; omega)
    rw [from_u32, hktarr, if_pos (by omega)]

theorem C7_from_u32_matches_text_witness :
    from_u32 1703715939 = new (padZero 10 (decimalDigits 1703715939)) :=
  (C7_from_u32_matches_text 1703715939 (by norm_num)).1 (by norm_num)

example : (new "3110002920".toList).map (Except.map display) =
    some (.ok "3110002920".toList) := by decide
example : new "9999".toList = some (.error (.InvalidLength 4)) := by decide
example : from_u32 3110002920 = new "3110002920".toList := by decide

end Kennitolur
